import Mathlib

/-!
Verification development for the `@ecom-co/elasticsearch` library.

The library is a metadata-driven document-mapping and repository layer on top
of the official Elasticsearch client.  This file gives a shallow embedding of
the parts of the source that the specification talks about:

* `src/es.constants.ts`  — DI-token derivation (`getElasticsearchClientToken`);
* `src/es.decorators.ts` — the `@Document`, `@Field`, `@Index` decorators,
  modelled as pure updates of a per-class metadata record;
* `src/es.utils.ts`      — the schema compiler (`buildDocumentMetadata`) and the
  document projector (`toElasticsearchDocument`);
* `src/es.repository.ts` — the generic repository (`EsRepository`), modelled as
  functions from class metadata and an abstract connection to a result
  together with the list of calls issued to the underlying connection;
* `src/es.service.ts`    — the connection registry (`ElasticsearchService`).

JavaScript strings that undergo case conversion or trimming are modelled as
lists of character codes (`JStr`); `codes` injects Lean string literals.
JavaScript `Map`s and plain objects used as dictionaries are modelled as
association lists with JS semantics for `set` (update-in-place keeps the
original position, otherwise append).  `undefined` is modelled by `Option`.
-/

namespace EcomEs

/-! ### JavaScript strings as code-unit sequences -/

/-- A JavaScript string, as its sequence of character codes. -/
abbrev JStr := List Nat

/-- Character codes of a Lean string literal. -/
def codes (s : String) : JStr := s.data.map Char.toNat

/-- One character of `String.prototype.toUpperCase` (ASCII range, which is all
the library's token constants use). -/
def upC (c : Nat) : Nat := if 97 ≤ c ∧ c ≤ 122 then c - 32 else c

/-- One character of `String.prototype.toLowerCase` (ASCII range). -/
def lowC (c : Nat) : Nat := if 65 ≤ c ∧ c ≤ 90 then c + 32 else c

/-- Whitespace as recognised by lodash `trim` (space, tab, LF, CR, VT, FF). -/
def isSp (c : Nat) : Bool := decide (c = 32 ∨ c = 9 ∨ c = 10 ∨ c = 13 ∨ c = 11 ∨ c = 12)

/-- lodash `trim`: drop whitespace from both ends. -/
def trimJ (s : JStr) : JStr := List.rdropWhile isSp (List.dropWhile isSp s)

/-- lodash `toUpper` on a string. -/
def upperJ (s : JStr) : JStr := s.map upC

/-- lodash `toLower` on a string. -/
def lowerJ (s : JStr) : JStr := s.map lowC

/-- JavaScript `x || d` for an optional string `x`: `undefined` and the empty
string (the only falsy strings) fall back to `d`. -/
def jsOr (s : Option JStr) (d : JStr) : JStr :=
  match s with
  | none => d
  | some s => if s = [] then d else s

/-! ### JSON-ish values and association maps -/

/-- A defined JavaScript value (no `undefined`: absence is `Option.none`). -/
inductive Val
  | null
  | bool (b : Bool)
  | num (n : Int)
  | str (s : JStr)
deriving DecidableEq, Repr

/-- Lookup in an association map (first match; maps built by `setKey` keep at
most one entry per key, mirroring JS `Map`/object keys). -/
def getKey {κ α : Type} [DecidableEq κ] (m : List (κ × α)) (k : κ) : Option α :=
  match m with
  | [] => none
  | e :: rest => if e.1 = k then some e.2 else getKey rest k

/-- JS `Map.prototype.set` / object key assignment: overwrite in place if the
key exists (keeping its original position), otherwise append at the end. -/
def setKey {κ α : Type} [DecidableEq κ] (m : List (κ × α)) (k : κ) (v : α) : List (κ × α) :=
  match m with
  | [] => [(k, v)]
  | e :: rest => if e.1 = k then (k, v) :: rest else e :: setKey rest k v

/-! ### Metadata model (`es.decorators.ts`, `es.interfaces.ts`) -/

/-- Options of a single `@Field` declaration (`FieldOptions` in
`es.interfaces.ts`): an engine field-type options object, kept opaque. -/
abbrev FieldOptions := List (String × Val)

/-- A `mappings` object: the `properties` key (a map from field name to field
options) plus the remaining top-level mapping keys, which the library never
inspects. -/
structure Mappings where
  properties : Option (List (String × FieldOptions))
  rest : List (String × Val)
deriving DecidableEq, Repr

/-- `DocumentOptions` of `es.interfaces.ts` (argument of `@Document`). -/
structure DocumentOptions where
  index : JStr
  docType : Option JStr := none
  settings : Option Val := none
  mappings : Option Mappings := none
deriving DecidableEq, Repr

/-- `IndexOptions` of `es.interfaces.ts` (argument of `@Index`). -/
structure IndexOptions where
  name : JStr
  settings : Option Val := none
deriving DecidableEq, Repr

/-- The reflect-metadata state attached to one class: the values stored under
the `ES_DOCUMENT_METADATA`, `ES_FIELD_METADATA` and `ES_INDEX_METADATA` keys. -/
structure ClassMeta where
  document : Option DocumentOptions := none
  fields : Option (List (String × FieldOptions)) := none
  indexMeta : Option IndexOptions := none
deriving DecidableEq, Repr

/-- The `@Document` decorator (`es.decorators.ts`): `defineMetadata` overwrites
any previous document options. -/
def Document (options : DocumentOptions) (target : ClassMeta) : ClassMeta :=
  { target with document := some options }

/-- The `@Field` decorator (`es.decorators.ts`): fetch the class's field map
(creating an empty one on first use), `Map.set` the property key, store back. -/
def Field (options : FieldOptions) (propertyKey : String) (target : ClassMeta) : ClassMeta :=
  let existingFields := target.fields.getD []
  { target with fields := some (setKey existingFields propertyKey options) }

/-- The `@Index` decorator (`es.decorators.ts`). -/
def Index (options : IndexOptions) (target : ClassMeta) : ClassMeta :=
  { target with indexMeta := some options }

/-- Apply a sequence of `@Field` declarations, in declaration order. -/
def applyFields (decls : List (String × FieldOptions)) (target : ClassMeta) : ClassMeta :=
  decls.foldl (fun acc d => Field d.2 d.1 acc) target

/-! ### Schema compiler and document projector (`es.utils.ts`) -/

/-- `getDocumentMetadata` (`es.utils.ts` line 52). -/
def getDocumentMetadata (target : ClassMeta) : Option DocumentOptions := target.document

/-- `getFieldsMetadata` (`es.utils.ts` line 63). -/
def getFieldsMetadata (target : ClassMeta) : Option (List (String × FieldOptions)) :=
  target.fields

/-- `getIndexMetadata` (`es.utils.ts` line 74). -/
def getIndexMetadata (target : ClassMeta) : Option IndexOptions := target.indexMeta

/-- The compiled `settings`: lodash `get(indexMetadata, 'settings',
documentOptions.settings)` — the index metadata's settings when both the
metadata record and its `settings` key are present, the document options'
settings otherwise. -/
def compiledSettings (indexMetadata : Option IndexOptions)
    (documentOptions : DocumentOptions) : Option Val :=
  match indexMetadata with
  | none => documentOptions.settings
  | some im =>
    match im.settings with
    | none => documentOptions.settings
    | some s => some s

/-- Result shape of `buildDocumentMetadata` (`DocumentMetadata` in
`es.interfaces.ts`). -/
structure DocumentMetadata where
  docType : Option JStr
  fields : Option (List (String × FieldOptions))
  index : JStr
  mappings : Mappings
  settings : Option Val
deriving DecidableEq, Repr

/-- `buildDocumentMetadata` (`es.utils.ts` lines 90-122).  Returns `none` when
the class has no `@Document` metadata.  Otherwise starts from a deep copy of
the document options' own `mappings` (deep copying is the identity in this
pure model; it is what makes the source side-effect-free) and, when field
metadata exists, overlays a `properties` map obtained by `set`ting every
field-map entry (in `Map` iteration order) over a copy of the base
`properties`.  `settings` is `get(indexMetadata, 'settings',
documentOptions.settings)`: the index metadata's settings when both the
metadata and its `settings` key are present, the document options' settings
otherwise. -/
def buildDocumentMetadata (target : ClassMeta) : Option DocumentMetadata :=
  match getDocumentMetadata target with
  | none => none
  | some documentOptions =>
    let baseMappings : Mappings := documentOptions.mappings.getD { properties := none, rest := [] }
    let mappings : Mappings :=
      match getFieldsMetadata target with
      | none => baseMappings
      | some fieldsMetadata =>
        let properties := baseMappings.properties.getD []
        let properties := fieldsMetadata.foldl (fun acc e => setKey acc e.1 e.2) properties
        { baseMappings with properties := some properties }
    some {
      docType := documentOptions.docType
      fields := getFieldsMetadata target
      index := documentOptions.index
      mappings := mappings
      settings := compiledSettings (getIndexMetadata target) documentOptions }

/-- The `mappings.properties` object of a compiled descriptor (empty when the
key is absent). -/
def mappingsProperties (dm : DocumentMetadata) : List (String × FieldOptions) :=
  dm.mappings.properties.getD []

/-- An entity instance (or a wire document): its enumerable own properties.  A
key that is absent models a property that is missing or `undefined`. -/
abbrev DocBody := List (String × Val)

/-- `toElasticsearchDocument` (`es.utils.ts` lines 134-156), with the class's
field metadata passed explicitly (the source reads it from
`instance.constructor`).  With no field metadata the result is lodash
`clone(instance)`, a shallow copy — structurally the instance itself.
Otherwise, for every field-map entry in order, the instance's value at that
key is copied into a fresh document unless it is `undefined`. -/
def toElasticsearchDocument (fieldsMetadata : Option (List (String × FieldOptions)))
    (inst : DocBody) : DocBody :=
  match fieldsMetadata with
  | none => inst
  | some fm =>
    fm.foldl
      (fun doc e =>
        match getKey inst e.1 with
        | none => doc
        | some v => setKey doc e.1 v)
      []

/-- `normalizeName` (`es.utils.ts` line 42): `toLower(trim(name) || 'default')`.
Defined for completeness; note that `ElasticsearchService` does NOT use it. -/
def normalizeName (name : Option JStr) : JStr :=
  lowerJ (jsOr (some (trimJ (name.getD []))) (codes "default"))

/-! ### DI tokens (`es.constants.ts`, `es.repository.ts`) -/

/-- `ES_DEFAULT_CLIENT_NAME` (`es.constants.ts` line 4). -/
def ES_DEFAULT_CLIENT_NAME : JStr := codes "default"

/-- `getElasticsearchClientToken` (`es.constants.ts` lines 15-19):
`keyUpper = toUpper(trim(name) || 'default')`; the token is `ES_CLIENT` when
`keyUpper` equals `toUpper('default')`, else `ES_CLIENT_` followed by
`keyUpper`. -/
def getElasticsearchClientToken (name : Option JStr) : JStr :=
  let keyUpper := upperJ (jsOr (some (trimJ (name.getD []))) ES_DEFAULT_CLIENT_NAME)
  if keyUpper = upperJ ES_DEFAULT_CLIENT_NAME then codes "ES_CLIENT"
  else codes "ES_CLIENT_" ++ keyUpper

/-- `getRepositoryToken` (`es.repository.ts` lines 437-443):
`toUpper('ES_REPOSITORY_' + entity.name)` then an underscore then the client
token of `toUpper(trim(clientName || 'default'))`. -/
def getRepositoryToken (entityName : JStr) (clientName : Option JStr) : JStr :=
  let base := upperJ (codes "ES_REPOSITORY_" ++ entityName)
  let name := upperJ (trimJ (jsOr clientName ES_DEFAULT_CLIENT_NAME))
  let clientToken := getElasticsearchClientToken (some name)
  base ++ codes "_" ++ clientToken

/-! ### Repository (`es.repository.ts`)

Each repository operation is modelled as a function of the entity's class
metadata, an abstract connection `Conn`, and the operation's arguments,
returning the operation's outcome together with the list of calls it issued to
the underlying connection.  An empty call list means the connection was never
reached.  Failures are `RepoErr`: either the configuration error thrown by the
`index` getter (`Error('Missing @Document metadata for repository entity')`,
line 65) or an engine failure reported by the connection. -/

/-- Failure classes the Elasticsearch engine can report, with their HTTP
status as assigned by the engine (`resource_already_exists_exception` and
`mapper_parsing_exception` are 400 Bad Request; not-found conditions are
404). -/
inductive EngineFailure
  | resourceAlreadyExists
  | mapperParsing
  | docNotFound
  | indexNotFound
  | securityException
  | serverError
deriving DecidableEq, Repr

/-- HTTP status of an engine failure. -/
def EngineFailure.status : EngineFailure → Nat
  | .resourceAlreadyExists => 400
  | .mapperParsing => 400
  | .docNotFound => 404
  | .indexNotFound => 404
  | .securityException => 403
  | .serverError => 500

/-- The not-found failures (document or index absent). -/
def EngineFailure.isNotFound : EngineFailure → Bool
  | .docNotFound => true
  | .indexNotFound => true
  | _ => false

/-- A repository-level failure: the configuration error thrown by the `index`
getter when the entity has no `@Document` metadata, or a propagated engine
failure. -/
inductive RepoErr
  | config
  | engine (f : EngineFailure)
deriving DecidableEq, Repr

/-- A structured query (`QueryDslQueryContainer`), passed through opaquely. -/
abbrev Query := List (String × Val)

/-- The search parameters accepted by `search` (`es.repository.ts` line 293).
`fromOffset` models the `from` field. -/
structure SearchParams where
  fromOffset : Option Nat := none
  q : Option JStr := none
  query : Option Query := none
  size : Option Nat := none
  sort : Option Val := none
deriving DecidableEq, Repr

/-- One operation of a `bulk` request body.  The source pushes an action line
and, where applicable, a payload line per operation; a `BulkOp` is that
action/payload pair. -/
inductive BulkOp
  | indexOp (index : JStr) (document : DocBody)
  | deleteOp (index : JStr) (id : JStr)
  | updateOp (index : JStr) (id : JStr) (doc : DocBody)
deriving DecidableEq, Repr

/-- A call issued to the underlying connection. -/
inductive EsCall
  | indicesCreate (index : JStr) (mappings : Mappings) (settings : Option Val)
  | indicesDelete (index : JStr)
  | indicesRefresh (index : JStr)
  | indexDoc (index : JStr) (id : Option JStr) (document : DocBody)
  | bulk (operations : List BulkOp)
  | deleteDoc (index : JStr) (id : JStr)
  | existsDoc (index : JStr) (id : JStr)
  | getDoc (index : JStr) (id : JStr)
  | mget (index : JStr) (ids : List JStr)
  | countDocs (index : JStr) (query : Option Query)
  | searchDocs (index : JStr) (params : SearchParams)
deriving DecidableEq, Repr

/-- The underlying connection, abstracted as the responses it gives to each
kind of call.  `none` in a `… → Option EngineFailure` field means the call
succeeds.  `docs` is the store consulted by document `exists`/`get`/`mget`
(`none` = the document does not exist).  `existsResp` is the raw result of the
exists call (`none` models a non-boolean response, which the source coerces to
`false`).  `countResp` yields either an engine failure or a response body
whose `count` field may be absent. -/
structure Conn where
  createResp : JStr → Option EngineFailure
  deleteResp : JStr → Option EngineFailure
  refreshResp : JStr → Option EngineFailure
  indexResp : JStr → Option JStr → DocBody → Option EngineFailure
  bulkResp : List BulkOp → Option EngineFailure
  deleteDocResp : JStr → JStr → Option EngineFailure
  existsResp : JStr → JStr → Option Bool
  docs : JStr → JStr → Option DocBody
  countResp : JStr → Option Query → Except EngineFailure (Option Nat)
  searchResp : JStr → SearchParams → Except EngineFailure Val

/-- Client transport behaviour for a call carrying an `ignore` option: a
response whose error status is listed in `ignored` resolves normally instead
of raising (`@elastic/elasticsearch` transport semantics). -/
def transportIgnore (resp : Option EngineFailure) (ignored : List Nat) : Except RepoErr Unit :=
  match resp with
  | none => .ok ()
  | some f => if f.status ∈ ignored then .ok () else .error (.engine f)

/-- Transport behaviour without an `ignore` option: every failure raises. -/
def transportRaw (resp : Option EngineFailure) : Except RepoErr Unit :=
  transportIgnore resp []

/-- The `index` getter (`es.repository.ts` lines 62-68): reads the entity's
`@Document` metadata and throws the configuration error when it is missing. -/
def indexName (meta : ClassMeta) : Except RepoErr JStr :=
  match getDocumentMetadata meta with
  | none => .error .config
  | some d => .ok d.index

/-- `ensureIndex` (lines 86-99): compile the schema descriptor; return without
any connection call when it is absent; otherwise issue `indices.create` with
the descriptor's index, mappings and settings, with `ignore: [400]`. -/
def ensureIndex (meta : ClassMeta) (conn : Conn) : Except RepoErr Unit × List EsCall :=
  match buildDocumentMetadata meta with
  | none => (.ok (), [])
  | some dm =>
    (transportIgnore (conn.createResp dm.index) [400],
     [.indicesCreate dm.index dm.mappings dm.settings])

/-- `deleteIndex` (lines 77-80): `indices.delete` with `ignore: [404]`. -/
def deleteIndex (meta : ClassMeta) (conn : Conn) : Except RepoErr Unit × List EsCall :=
  match indexName meta with
  | .error e => (.error e, [])
  | .ok idx => (transportIgnore (conn.deleteResp idx) [404], [.indicesDelete idx])

/-- `refresh` (lines 102-104). -/
def refresh (meta : ClassMeta) (conn : Conn) : Except RepoErr Unit × List EsCall :=
  match indexName meta with
  | .error e => (.error e, [])
  | .ok idx => (transportRaw (conn.refreshResp idx), [.indicesRefresh idx])

/-- `indexOne` (lines 111-113): project the entity through
`toElasticsearchDocument` and issue a single `index` call.  The `index` getter
runs while the request object is built, so a missing `@Document` throws before
any connection call. -/
def indexOne (meta : ClassMeta) (conn : Conn) (entity : DocBody) (id : Option JStr) :
    Except RepoErr Unit × List EsCall :=
  match indexName meta with
  | .error e => (.error e, [])
  | .ok idx =>
    let document := toElasticsearchDocument (getFieldsMetadata meta) entity
    (transportRaw (conn.indexResp idx id document), [.indexDoc idx id document])

/-- `bulkIndex` (lines 116-126): empty input returns before anything else;
otherwise one batched `bulk` call with an index action per entity. -/
def bulkIndex (meta : ClassMeta) (conn : Conn) (entities : List DocBody) :
    Except RepoErr Unit × List EsCall :=
  if entities.isEmpty then (.ok (), [])
  else
    match indexName meta with
    | .error e => (.error e, [])
    | .ok idx =>
      let operations := entities.map
        (fun e => BulkOp.indexOp idx (toElasticsearchDocument (getFieldsMetadata meta) e))
      (transportRaw (conn.bulkResp operations), [.bulk operations])

/-- `bulkDeleteByIds` (lines 129-138). -/
def bulkDeleteByIds (meta : ClassMeta) (conn : Conn) (ids : List JStr) :
    Except RepoErr Unit × List EsCall :=
  if ids.isEmpty then (.ok (), [])
  else
    match indexName meta with
    | .error e => (.error e, [])
    | .ok idx =>
      let operations := ids.map (fun id => BulkOp.deleteOp idx id)
      (transportRaw (conn.bulkResp operations), [.bulk operations])

/-- `bulkUpdateByIds` (lines 141-151). -/
def bulkUpdateByIds (meta : ClassMeta) (conn : Conn) (updates : List (JStr × DocBody)) :
    Except RepoErr Unit × List EsCall :=
  if updates.isEmpty then (.ok (), [])
  else
    match indexName meta with
    | .error e => (.error e, [])
    | .ok idx =>
      let operations := updates.map (fun u => BulkOp.updateOp idx u.1 u.2)
      (transportRaw (conn.bulkResp operations), [.bulk operations])

/-- `deleteById` (lines 154-156). -/
def deleteById (meta : ClassMeta) (conn : Conn) (id : JStr) :
    Except RepoErr Unit × List EsCall :=
  match indexName meta with
  | .error e => (.error e, [])
  | .ok idx => (transportRaw (conn.deleteDocResp idx id), [.deleteDoc idx id])

/-- `exists` (lines 219-223): a non-boolean response is coerced to `false`;
named `docExists` here because `exists` is a Lean keyword. -/
def docExists (meta : ClassMeta) (conn : Conn) (id : JStr) :
    Except RepoErr Bool × List EsCall :=
  match indexName meta with
  | .error e => (.error e, [])
  | .ok idx => (.ok ((conn.existsResp idx id).getD false), [.existsDoc idx id])

/-- Raw response of a `get` call as far as the library inspects it. -/
structure GetResponse where
  found : Bool
  source : Option DocBody
deriving DecidableEq, Repr

/-- `findById` (lines 226-228): raw passthrough of the client `get` call,
which raises a 404 engine failure when the document does not exist. -/
def findById (meta : ClassMeta) (conn : Conn) (id : JStr) :
    Except RepoErr GetResponse × List EsCall :=
  match indexName meta with
  | .error e => (.error e, [])
  | .ok idx =>
    ((match conn.docs idx id with
      | none => .error (.engine .docNotFound)
      | some b => .ok { found := true, source := some b }),
     [.getDoc idx id])

/-- `findSourceById` (lines 231-239): run the existence check first; when it
reports `false` return `undefined` without fetching; only when it reports
`true` issue the `get` call and return the body. -/
def findSourceById (meta : ClassMeta) (conn : Conn) (id : JStr) :
    Except RepoErr (Option DocBody) × List EsCall :=
  match indexName meta with
  | .error e => (.error e, [])
  | .ok idx =>
    let found := (conn.existsResp idx id).getD false
    if found then
      ((match conn.docs idx id with
        | none => .error (.engine .docNotFound)
        | some b => .ok (some b)),
       [.existsDoc idx id, .getDoc idx id])
    else (.ok none, [.existsDoc idx id])

/-- One slot of an `mget` response body. -/
structure MgetDoc where
  found : Bool
  source : Option DocBody
deriving DecidableEq, Repr

/-- Engine semantics of `mget`: the response's `docs` array is aligned
position-for-position with the requested doc descriptors (the protocol
guarantee the source relies on, spec §5). -/
def mgetEngineDocs (conn : Conn) (idx : JStr) (ids : List JStr) : List MgetDoc :=
  ids.map
    (fun id =>
      match conn.docs idx id with
      | some b => { found := true, source := some b }
      | none => { found := false, source := none })

/-- `mgetSources` (lines 242-252): empty input short-circuits to `[]`;
otherwise request one doc per id in input order and map each response slot to
its `_source` when `found`, `undefined` otherwise. -/
def mgetSources (meta : ClassMeta) (conn : Conn) (ids : List JStr) :
    Except RepoErr (List (Option DocBody)) × List EsCall :=
  if ids.isEmpty then (.ok [], [])
  else
    match indexName meta with
    | .error e => (.error e, [])
    | .ok idx =>
      let docsArr := mgetEngineDocs conn idx ids
      (.ok (docsArr.map (fun d => if d.found then d.source else none)), [.mget idx ids])

/-- `count` (lines 255-259): `get(res, 'count', 0)` — the response's `count`
field, defaulting to 0 when the field is absent. -/
def count (meta : ClassMeta) (conn : Conn) (query : Option Query) :
    Except RepoErr Nat × List EsCall :=
  match indexName meta with
  | .error e => (.error e, [])
  | .ok idx =>
    ((match conn.countResp idx query with
      | .error f => .error (.engine f)
      | .ok c => .ok (c.getD 0)),
     [.countDocs idx query])

/-- `search` (lines 293-303): passthrough of the typed search call. -/
def search (meta : ClassMeta) (conn : Conn) (params : SearchParams) :
    Except RepoErr Val × List EsCall :=
  match indexName meta with
  | .error e => (.error e, [])
  | .ok idx =>
    ((match conn.searchResp idx params with
      | .error f => .error (.engine f)
      | .ok v => .ok v),
     [.searchDocs idx params])

/-! ### A concrete engine for the idempotent-lifecycle scenarios -/

/-- Engine-side cluster state: the set of existing indices. -/
structure EngineState where
  indices : List JStr
deriving DecidableEq, Repr

/-- The connection as seen against cluster state `s`: `indices.create` on an
existing index reports `resource_already_exists_exception`, `indices.delete`
on a missing index reports `index_not_found_exception`; the document-level
calls see an empty store. -/
def connOf (s : EngineState) : Conn where
  createResp idx := if idx ∈ s.indices then some .resourceAlreadyExists else none
  deleteResp idx := if idx ∈ s.indices then none else some .indexNotFound
  refreshResp _ := none
  indexResp _ _ _ := none
  bulkResp _ := none
  deleteDocResp _ _ := none
  existsResp _ _ := some false
  docs _ _ := none
  countResp _ _ := .ok none
  searchResp _ _ := .ok .null

/-- Effect of a successful-or-conflicting `indices.create` on cluster state. -/
def stepCreate (s : EngineState) (idx : JStr) : EngineState :=
  if idx ∈ s.indices then s else { indices := idx :: s.indices }

/-- Effect of an `indices.delete` on cluster state. -/
def stepDelete (s : EngineState) (idx : JStr) : EngineState :=
  { indices := s.indices.erase idx }

/-! ### Connection registry (`es.service.ts`) -/

/-- A connection definition handed to `configure` (`ElasticsearchClientOptions`
with a `name`): the name plus the remaining client options, passed through
verbatim and modelled opaquely. -/
structure ClientDef where
  name : Option JStr := none
  node : JStr := []
deriving DecidableEq, Repr

/-- A live client, as constructed by `createElasticsearchClient`
(`es.utils.ts` line 31): it is determined by its options. -/
structure EsClient where
  options : ClientDef
deriving DecidableEq, Repr

/-- `createElasticsearchClient` (`es.utils.ts` lines 31-32). -/
def createElasticsearchClient (options : ClientDef) : EsClient := ⟨options⟩

/-- The service's `nameToClient` map. -/
abbrev Registry := List (JStr × EsClient)

/-- `ElasticsearchService.configure` (`es.service.ts` lines 60-70): for each
definition, key = `(def.name || ES_DEFAULT_CLIENT_NAME).toLowerCase()` — note:
lowercased but NOT trimmed — and store the constructed client under it. -/
def configure (options : List ClientDef) (reg : Registry) : Registry :=
  options.foldl
    (fun acc d =>
      let name := lowerJ (jsOr d.name ES_DEFAULT_CLIENT_NAME)
      setKey acc name (createElasticsearchClient d))
    reg

/-- The registry's lookup failure (`Error('Elasticsearch client not found: ...')`)
carrying the requested name as it appears in the message. -/
inductive SvcErr
  | clientNotFound (requested : JStr)
deriving DecidableEq, Repr

/-- `ElasticsearchService.get` (`es.service.ts` lines 44-51): the argument
defaults to `ES_DEFAULT_CLIENT_NAME` when absent, is lowercased — again not
trimmed, and an empty string is not defaulted — and looked up; a miss throws
an error carrying the original requested name. -/
def getClient (reg : Registry) (name : Option JStr) : Except SvcErr EsClient :=
  let nm := name.getD ES_DEFAULT_CLIENT_NAME
  let key := lowerJ nm
  match getKey reg key with
  | some c => .ok c
  | none => .error (.clientNotFound nm)

/-! ### Specification helpers and concrete fixtures -/

/-- The most-recently-set value for a key in a declaration sequence (later
entries win). -/
def lastValue {κ α : Type} [DecidableEq κ] (decls : List (κ × α)) (k : κ) : Option α :=
  decls.foldl (fun acc d => if d.1 = k then some d.2 else acc) none

/-- A map whose keys are pairwise distinct (invariant of maps built with
`setKey`). -/
def KeysNodup {κ α : Type} (m : List (κ × α)) : Prop := (m.map Prod.fst).Nodup

/-- The connection-token derivation as the specification words it: trim and
uppercase the name; the token is `ES_CLIENT` when the result is `DEFAULT`
(including the absent-name and empty-string cases), else `ES_CLIENT_`
followed by the uppercased trimmed name. -/
def clientTokenSpec (name : Option JStr) : JStr :=
  let t := trimJ (name.getD [])
  let u := upperJ t
  if u = codes "DEFAULT" ∨ t = [] then codes "ES_CLIENT" else codes "ES_CLIENT_" ++ u

/-- Connection-name normalization as the specification words it for the
Connection Registry: trim whitespace, lowercase, empty/absent name becomes
`default`. -/
def specNormalizeName (name : Option JStr) : JStr :=
  let t := trimJ (name.getD [])
  if t = [] then codes "default" else lowerJ t

/-- A connection on which every call succeeds (used to instantiate theorems at
concrete inputs). -/
def trivialConn : Conn where
  createResp _ := none
  deleteResp _ := none
  refreshResp _ := none
  indexResp _ _ _ := none
  bulkResp _ := none
  deleteDocResp _ _ := none
  existsResp _ _ := some false
  docs _ _ := none
  countResp _ _ := .ok none
  searchResp _ _ := .ok .null

/-- A connection whose `indices.create` fails with
`mapper_parsing_exception` (an invalid-mapping failure, HTTP 400). -/
def mapperConn : Conn :=
  { trivialConn with createResp := fun _ => some .mapperParsing }

/-- Metadata of a minimal decorated entity class: `@Document({ index: 'products' })`. -/
def sampleMeta : ClassMeta :=
  { document := some { index := codes "products" } }

/-- Metadata of a class that carries no `@Document` declaration. -/
def bareMeta : ClassMeta := {}

/-! ## Lemmas about association maps with JS `Map.set` semantics -/

theorem getKey_setKey {κ α : Type} [DecidableEq κ] (m : List (κ × α)) (k k' : κ) (v : α) :
    getKey (setKey m k v) k' = if k = k' then some v else getKey m k' := by
  induction m with
  | nil => simp [getKey, setKey]
  | cons e rest ih =>
    by_cases h1 : e.1 = k
    · by_cases h2 : k = k'
      · subst h2; simp [setKey, getKey, h1]
      · simp [setKey, getKey, h1, h2]
    · by_cases h2 : e.1 = k'
      · have h3 : ¬ k = k' := fun hk => h1 (hk ▸ h2)
        have h4 : ¬ k' = k := fun hk => h3 hk.symm
        simp [setKey, getKey, h1, h2, h3, h4]
      · simp [setKey, getKey, h1, h2, ih]

theorem mem_keys_setKey {κ α : Type} [DecidableEq κ] (m : List (κ × α)) (k x : κ) (v : α)
    (hx : x ∈ (setKey m k v).map Prod.fst) : x = k ∨ x ∈ m.map Prod.fst := by
  induction m with
  | nil => simpa [setKey] using hx
  | cons e rest ih =>
    by_cases h1 : e.1 = k
    · simp only [setKey, if_pos h1, List.map_cons, List.mem_cons] at hx
      rcases hx with h | h
      · exact Or.inl h
      · right
        simp only [List.map_cons, List.mem_cons]
        exact Or.inr h
    · simp only [setKey, if_neg h1, List.map_cons, List.mem_cons] at hx
      rcases hx with h | h
      · right
        simp only [List.map_cons, List.mem_cons]
        exact Or.inl h
      · rcases ih h with h' | h'
        · exact Or.inl h'
        · right
          simp only [List.map_cons, List.mem_cons]
          exact Or.inr h'

theorem keysNodup_setKey {κ α : Type} [DecidableEq κ] (m : List (κ × α)) (k : κ) (v : α)
    (hm : KeysNodup m) : KeysNodup (setKey m k v) := by
  induction m with
  | nil => simp [KeysNodup, setKey]
  | cons e rest ih =>
    unfold KeysNodup at hm ⊢
    simp only [List.map_cons, List.nodup_cons] at hm
    by_cases h1 : e.1 = k
    · simp only [setKey, if_pos h1, List.map_cons, List.nodup_cons]
      exact ⟨h1 ▸ hm.1, hm.2⟩
    · simp only [setKey, if_neg h1, List.map_cons, List.nodup_cons]
      refine ⟨fun hmem => ?_, ih hm.2⟩
      rcases mem_keys_setKey rest k e.1 v hmem with h | h
      · exact h1 h
      · exact hm.1 h

theorem keysNodup_foldl_setKey {κ α : Type} [DecidableEq κ]
    (decls : List (κ × α)) (init : List (κ × α)) (h : KeysNodup init) :
    KeysNodup (decls.foldl (fun acc e => setKey acc e.1 e.2) init) := by
  induction decls generalizing init with
  | nil => exact h
  | cons d ds ih => exact ih _ (keysNodup_setKey _ _ _ h)

theorem lastValue_cons {κ α : Type} [DecidableEq κ] (ds : List (κ × α)) (k : κ) :
    ∀ a : Option α,
      ds.foldl (fun acc e => if e.1 = k then some e.2 else acc) a
        = (lastValue ds k).elim a some := by
  induction ds with
  | nil => intro a; rfl
  | cons e rest ih =>
    intro a
    show rest.foldl _ (if e.1 = k then some e.2 else a) = _
    rw [ih]
    have hl : lastValue (e :: rest) k
        = (lastValue rest k).elim (if e.1 = k then some e.2 else none) some := by
      show rest.foldl _ (if e.1 = k then some e.2 else none) = _
      exact ih _
    rw [hl]
    cases lastValue rest k with
    | none =>
      by_cases h : e.1 = k <;> simp [h]
    | some v => rfl

theorem getKey_foldl_setKey {κ α : Type} [DecidableEq κ]
    (decls : List (κ × α)) (init : List (κ × α)) (k : κ) :
    getKey (decls.foldl (fun acc e => setKey acc e.1 e.2) init) k
      = (lastValue decls k).elim (getKey init k) some := by
  induction decls generalizing init with
  | nil => rfl
  | cons d ds ih =>
    show getKey (ds.foldl _ (setKey init d.1 d.2)) k = _
    rw [ih]
    have h1 : getKey (setKey init d.1 d.2) k = if d.1 = k then some d.2 else getKey init k :=
      getKey_setKey init d.1 k d.2
    have h2 : lastValue (d :: ds) k
        = (lastValue ds k).elim (if d.1 = k then some d.2 else none) some := by
      show ds.foldl _ (if d.1 = k then some d.2 else none) = _
      exact lastValue_cons ds k _
    rw [h1, h2]
    cases lastValue ds k with
    | none => by_cases h : d.1 = k <;> simp [h]
    | some v => rfl

theorem not_mem_keys_getKey {κ α : Type} [DecidableEq κ] (m : List (κ × α)) (k : κ)
    (h : k ∉ m.map Prod.fst) : getKey m k = none := by
  induction m with
  | nil => rfl
  | cons e rest ih =>
    simp only [List.map_cons, List.mem_cons, not_or] at h
    have : ¬ e.1 = k := fun he => h.1 he.symm
    simp [getKey, this, ih h.2]

theorem not_mem_keys_lastValue {κ α : Type} [DecidableEq κ] (m : List (κ × α)) (k : κ)
    (h : k ∉ m.map Prod.fst) : lastValue m k = none := by
  induction m with
  | nil => rfl
  | cons e rest ih =>
    simp only [List.map_cons, List.mem_cons, not_or] at h
    have he : ¬ e.1 = k := fun he => h.1 he.symm
    show rest.foldl _ (if e.1 = k then some e.2 else none) = none
    rw [lastValue_cons rest k, ih h.2]
    simp [he]

theorem lastValue_eq_getKey {κ α : Type} [DecidableEq κ] (m : List (κ × α)) (k : κ)
    (hm : KeysNodup m) : lastValue m k = getKey m k := by
  induction m with
  | nil => rfl
  | cons e rest ih =>
    unfold KeysNodup at hm
    simp only [List.map_cons, List.nodup_cons] at hm
    have hstep : lastValue (e :: rest) k
        = (lastValue rest k).elim (if e.1 = k then some e.2 else none) some := by
      show rest.foldl _ (if e.1 = k then some e.2 else none) = _
      exact lastValue_cons rest k _
    by_cases h : e.1 = k
    · have hnot : k ∉ rest.map Prod.fst := h ▸ hm.1
      rw [hstep, not_mem_keys_lastValue rest k hnot]
      simp [getKey, h]
    · rw [hstep, ih hm.2]
      cases hk : getKey rest k with
      | none => simp [getKey, h, hk]
      | some v => simp [getKey, h, hk]

/-! ## Lemmas about field-declaration accumulation and the schema compiler -/

theorem applyFields_document (decls : List (String × FieldOptions)) (m : ClassMeta) :
    (applyFields decls m).document = m.document := by
  induction decls generalizing m with
  | nil => rfl
  | cons d ds ih => exact ih (Field d.2 d.1 m)

theorem applyFields_indexMeta (decls : List (String × FieldOptions)) (m : ClassMeta) :
    (applyFields decls m).indexMeta = m.indexMeta := by
  induction decls generalizing m with
  | nil => rfl
  | cons d ds ih => exact ih (Field d.2 d.1 m)

theorem applyFields_fields_some (decls : List (String × FieldOptions)) (m : ClassMeta)
    (fm : List (String × FieldOptions)) (h : m.fields = some fm) :
    (applyFields decls m).fields
      = some (decls.foldl (fun acc e => setKey acc e.1 e.2) fm) := by
  induction decls generalizing m fm with
  | nil => simpa using h
  | cons d ds ih =>
    show (applyFields ds (Field d.2 d.1 m)).fields = _
    exact ih (Field d.2 d.1 m) (setKey fm d.1 d.2) (by simp [Field, h])

theorem lastValue_append_single {κ α : Type} [DecidableEq κ]
    (l : List (κ × α)) (k : κ) (v : α) : lastValue (l ++ [(k, v)]) k = some v := by
  unfold lastValue
  rw [List.foldl_append]
  simp

theorem elim_none_some {α : Type} (x : Option α) : x.elim none some = x := by
  cases x <;> rfl

/-- Master computation: after applying a sequence of `@Field` declarations to
a fresh class carrying `@Document` metadata, the compiled
`mappings.properties` binds each key to its most-recently-declared options,
falling back to the `@Document` options' own base `properties`. -/
theorem mappingsProperties_applyFields
    (docOpts : DocumentOptions) (idxm : Option IndexOptions)
    (decls : List (String × FieldOptions)) (dm : DocumentMetadata)
    (hdm : buildDocumentMetadata
        (applyFields decls { document := some docOpts, fields := none, indexMeta := idxm })
        = some dm)
    (k : String) :
    getKey (mappingsProperties dm) k
      = (lastValue decls k).elim
          (getKey ((docOpts.mappings.getD { properties := none, rest := [] }).properties.getD []) k)
          some := by
  cases decls with
  | nil =>
    have hdm' : some
        ({ docType := docOpts.docType
           fields := none
           index := docOpts.index
           mappings := docOpts.mappings.getD { properties := none, rest := [] }
           settings := compiledSettings idxm docOpts } : DocumentMetadata) = some dm := hdm
    have h2 := Option.some_inj.mp hdm'
    show getKey (dm.mappings.properties.getD []) k = _
    rw [← h2]
    rfl
  | cons d ds =>
    set m1 := applyFields (d :: ds) { document := some docOpts, fields := none, indexMeta := idxm }
      with hm1
    have hdoc : m1.document = some docOpts := applyFields_document _ _
    have hfields : m1.fields
        = some ((d :: ds).foldl (fun acc e => setKey acc e.1 e.2) []) := by
      rw [hm1]
      show (applyFields ds (Field d.2 d.1 _)).fields = _
      exact applyFields_fields_some ds _ (setKey [] d.1 d.2) rfl
    set fm := (d :: ds).foldl (fun acc e => setKey acc e.1 e.2) ([] : List (String × FieldOptions))
      with hfm
    set baseProps :=
      ((docOpts.mappings.getD { properties := none, rest := [] }).properties).getD []
      with hbase
    have hmap := congrArg (Option.map DocumentMetadata.mappings) hdm
    have h2 : dm.mappings
        = { docOpts.mappings.getD { properties := none, rest := [] } with
            properties := some (fm.foldl (fun acc e => setKey acc e.1 e.2) baseProps) } := by
      rw [show (buildDocumentMetadata m1).map DocumentMetadata.mappings
          = some ({ docOpts.mappings.getD { properties := none, rest := [] } with
              properties := some (fm.foldl (fun acc e => setKey acc e.1 e.2) baseProps) }) from ?_]
        at hmap
      · exact (Option.some_inj.mp hmap).symm
      · simp only [buildDocumentMetadata, getDocumentMetadata, getFieldsMetadata,
          getIndexMetadata, hdoc, hfields]
        rfl
    have hnodup : KeysNodup fm := by
      rw [hfm]
      exact keysNodup_foldl_setKey _ [] (by simp [KeysNodup])
    have step1 : getKey (mappingsProperties dm) k
        = getKey (fm.foldl (fun acc e => setKey acc e.1 e.2) baseProps) k := by
      rw [mappingsProperties, h2]
      rfl
    have step2 : getKey (fm.foldl (fun acc e => setKey acc e.1 e.2) baseProps) k
        = (lastValue fm k).elim (getKey baseProps k) some :=
      getKey_foldl_setKey fm baseProps k
    have step3 : lastValue fm k = lastValue (d :: ds) k := by
      rw [lastValue_eq_getKey fm k hnodup, hfm,
        getKey_foldl_setKey (d :: ds) [] k]
      show (lastValue (d :: ds) k).elim none some = _
      exact elim_none_some _
    rw [step1, step2, step3]

/-! ## Claim C1 -/

/-- C1: for every class with a Document Declaration and every sequence of
Field Declarations applied to it, `buildDocumentMetadata` yields a
`mappings.properties` map in which each declared property name is bound to
its most-recently-set field options (latest wins); the result depends only on
the latest value per field name, not on declaration order among distinct
names (any two declaration sequences with the same latest-value-per-name
compile to extensionally equal `properties`); compilation is idempotent and
side-effect-free (two calls on unchanged metadata are structurally equal — in
this pure embedding the source's deep copies make the function pure); and
compiling after a new Field Declaration is added reflects the new field. -/
theorem C1_buildDocumentMetadata_latest_wins
    (docOpts : DocumentOptions) (idxm : Option IndexOptions)
    (decls : List (String × FieldOptions)) (dm : DocumentMetadata)
    (hdm : buildDocumentMetadata
        (applyFields decls { document := some docOpts, fields := none, indexMeta := idxm })
        = some dm) :
    (∀ k opts, lastValue decls k = some opts → getKey (mappingsProperties dm) k = some opts)
    ∧ (∀ decls₂ dm₂,
        buildDocumentMetadata
          (applyFields decls₂ { document := some docOpts, fields := none, indexMeta := idxm })
          = some dm₂ →
        (∀ k, lastValue decls₂ k = lastValue decls k) →
        ∀ k, getKey (mappingsProperties dm₂) k = getKey (mappingsProperties dm) k)
    ∧ buildDocumentMetadata
        (applyFields decls { document := some docOpts, fields := none, indexMeta := idxm })
      = buildDocumentMetadata
        (applyFields decls { document := some docOpts, fields := none, indexMeta := idxm })
    ∧ (∀ nm opts dm₃,
        buildDocumentMetadata
          (Field opts nm
            (applyFields decls { document := some docOpts, fields := none, indexMeta := idxm }))
          = some dm₃ →
        getKey (mappingsProperties dm₃) nm = some opts) := by
  refine ⟨?_, ?_, rfl, ?_⟩
  · intro k opts h
    rw [mappingsProperties_applyFields docOpts idxm decls dm hdm k, h]
    rfl
  · intro decls₂ dm₂ hdm₂ hsame k
    rw [mappingsProperties_applyFields docOpts idxm decls₂ dm₂ hdm₂ k,
      mappingsProperties_applyFields docOpts idxm decls dm hdm k, hsame k]
  · intro nm opts dm₃ hdm₃
    have heq : Field opts nm
        (applyFields decls { document := some docOpts, fields := none, indexMeta := idxm })
        = applyFields (decls ++ [(nm, opts)])
            { document := some docOpts, fields := none, indexMeta := idxm } := by
      simp [applyFields, List.foldl_append]
    rw [heq] at hdm₃
    rw [mappingsProperties_applyFields docOpts idxm (decls ++ [(nm, opts)]) dm₃ hdm₃ nm,
      lastValue_append_single]
    rfl

/-- Witness for C1: the class `@Document({index:'products'})` with field
declarations `a:text`, `b:keyword`, then `a` re-declared as `long`; the
compiled `properties` binds `a` to the latest options. -/
theorem C1_witness :
    getKey (mappingsProperties
      ({ docType := none
         fields := some [("a", [("type", Val.str (codes "long"))]),
           ("b", [("type", Val.str (codes "keyword"))])]
         index := codes "products"
         mappings := { properties := some [("a", [("type", Val.str (codes "long"))]),
           ("b", [("type", Val.str (codes "keyword"))])], rest := [] }
         settings := none } : DocumentMetadata)) "a"
      = some [("type", Val.str (codes "long"))] :=
  (C1_buildDocumentMetadata_latest_wins { index := codes "products" } none
      [("a", [("type", Val.str (codes "text"))]), ("b", [("type", Val.str (codes "keyword"))]),
        ("a", [("type", Val.str (codes "long"))])]
      _ rfl).1 "a" _ rfl

/-! ## Claim C2 -/

theorem toDoc_fold (inst : DocBody) (k : String) :
    ∀ (fm : List (String × FieldOptions)) (doc : DocBody),
      getKey (fm.foldl (fun doc e =>
          match getKey inst e.1 with
          | none => doc
          | some v => setKey doc e.1 v) doc) k
        = if ((getKey fm k).isSome && (getKey inst k).isSome) then getKey inst k
          else getKey doc k := by
  intro fm
  induction fm with
  | nil => intro doc; simp [getKey]
  | cons e rest ih =>
    intro doc
    show getKey (rest.foldl _
      (match getKey inst e.1 with | none => doc | some v => setKey doc e.1 v)) k = _
    rw [ih]
    by_cases hek : e.1 = k
    · subst hek
      cases hik : getKey inst e.1 with
      | none => simp [getKey, hik]
      | some v =>
        have hsk : getKey (setKey doc e.1 v) e.1 = some v := by
          rw [getKey_setKey]
          simp
        cases hr : (getKey rest e.1).isSome <;>
          simp [getKey, hik, hsk, hr]
    · cases hik : getKey inst e.1 with
      | none => simp [getKey, hek, hik]
      | some v =>
        have hsk : getKey (setKey doc e.1 v) k = getKey doc k := by
          rw [getKey_setKey]
          simp [hek]
        simp [getKey, hek, hik, hsk]

/-- C2: for every entity instance whose class has Field Declarations,
`toElasticsearchDocument` contains exactly the declared field names whose
value on the instance is defined — each copied under the same key, never any
undeclared property, and fields absent on the instance are omitted (the
lookup is `none`, not `some Val.null`); with no Field Declarations at all the
result is a shallow copy of every enumerable own property of the instance. -/
theorem C2_toElasticsearchDocument_allowlist :
    (∀ (fm : List (String × FieldOptions)) (inst : DocBody) (k : String),
       getKey (toElasticsearchDocument (some fm) inst) k
         = if (getKey fm k).isSome then getKey inst k else none)
    ∧ ∀ inst : DocBody, toElasticsearchDocument none inst = inst := by
  constructor
  · intro fm inst k
    show getKey (fm.foldl _ []) k = _
    rw [toDoc_fold inst k fm []]
    cases hf : (getKey fm k).isSome
    · simp [getKey]
    · cases hik : getKey inst k <;> simp [getKey, hik]
  · intro inst
    rfl

/-! ## Claim C3 -/

/-- C3: for any entity class with no Document Declaration,
`buildDocumentMetadata` returns `none` (absent, not an error); `ensureIndex`
resolves as a no-op that issues no connection call; and every repository
operation that reads the index name (`indexOne`, `deleteById`, `exists`,
`findById`, `search`, `count`, `refresh`, `deleteIndex`, also
`findSourceById`) fails with the configuration-error kind — distinct from
every engine-error kind — with an empty call trace, i.e. without ever
reaching the underlying connection. -/
theorem C3_missing_document_config_error
    (meta : ClassMeta) (conn : Conn) (entity : DocBody) (id : JStr)
    (oid : Option JStr) (q : Option Query) (params : SearchParams)
    (h : getDocumentMetadata meta = none) :
    buildDocumentMetadata meta = none
    ∧ ensureIndex meta conn = (.ok (), [])
    ∧ indexOne meta conn entity oid = (.error .config, [])
    ∧ deleteById meta conn id = (.error .config, [])
    ∧ docExists meta conn id = (.error .config, [])
    ∧ findById meta conn id = (.error .config, [])
    ∧ search meta conn params = (.error .config, [])
    ∧ count meta conn q = (.error .config, [])
    ∧ refresh meta conn = (.error .config, [])
    ∧ deleteIndex meta conn = (.error .config, [])
    ∧ findSourceById meta conn id = (.error .config, [])
    ∧ ∀ f : EngineFailure, RepoErr.config ≠ RepoErr.engine f := by
  have hb : buildDocumentMetadata meta = none := by
    unfold buildDocumentMetadata
    rw [h]
  have hi : indexName meta = .error .config := by
    unfold indexName
    rw [h]
  refine ⟨hb, ?_, ?_, ?_, ?_, ?_, ?_, ?_, ?_, ?_, ?_, ?_⟩
  · simp [ensureIndex, hb]
  · simp [indexOne, hi]
  · simp [deleteById, hi]
  · simp [docExists, hi]
  · simp [findById, hi]
  · simp [search, hi]
  · simp [count, hi]
  · simp [refresh, hi]
  · simp [deleteIndex, hi]
  · simp [findSourceById, hi]
  · intro f
    simp

/-- Witness for C3: a class with no `@Document` metadata against the trivial
connection. -/
theorem C3_witness :
    ensureIndex bareMeta trivialConn = (.ok (), [])
    ∧ indexOne bareMeta trivialConn [] none = (.error .config, [])
    ∧ count bareMeta trivialConn none = (.error .config, []) :=
  have c := C3_missing_document_config_error bareMeta trivialConn [] (codes "p1")
    none none {} rfl
  ⟨c.2.1, c.2.2.1, c.2.2.2.2.2.2.2.1⟩

/-! ## Claim C4 -/

theorem mget_map_sources (conn : Conn) (idx : JStr) (ids : List JStr) :
    (mgetEngineDocs conn idx ids).map (fun d => if d.found then d.source else none)
      = ids.map (fun id => conn.docs idx id) := by
  unfold mgetEngineDocs
  rw [List.map_map]
  apply List.map_congr_left
  intro id _
  cases hd : conn.docs idx id <;> simp [Function.comp, hd]

/-- C4: for every input id sequence, `mgetSources` returns a sequence aligned
index-for-index with the input: one slot per input id in the same position
order, holding the document body when that id is found and `none` when it is
not, so the result zips with the input ids. -/
theorem C4_mgetSources_aligned (meta : ClassMeta) (d : DocumentOptions) (conn : Conn)
    (ids : List JStr) (h : getDocumentMetadata meta = some d) :
    (mgetSources meta conn ids).1 = .ok (ids.map (fun id => conn.docs d.index id))
    ∧ ∀ res, (mgetSources meta conn ids).1 = .ok res →
        res.length = ids.length
        ∧ ∀ i : Nat, res[i]? = (ids[i]?).map (fun id => conn.docs d.index id) := by
  have hi : indexName meta = .ok d.index := by
    unfold indexName
    rw [h]
  have h1 : (mgetSources meta conn ids).1 = .ok (ids.map (fun id => conn.docs d.index id)) := by
    cases ids with
    | nil => rfl
    | cons a as =>
      simp only [mgetSources, List.isEmpty_cons, hi]
      rw [if_neg (by simp)]
      simp only [mget_map_sources]
  refine ⟨h1, ?_⟩
  intro res hres
  rw [h1] at hres
  have : res = ids.map (fun id => conn.docs d.index id) := by
    exact (Except.ok.inj hres).symm
  subst this
  constructor
  · exact List.length_map _ _
  · intro i
    exact List.getElem?_map _ _ _

/-- Witness for C4: three ids of which the middle one does not exist on the
connection; the result is a three-slot sequence, absent exactly in the middle,
in input order. -/
theorem C4_witness :
    (mgetSources sampleMeta
        { trivialConn with
          docs := fun _ id =>
            if id = codes "y" then none else some [("id", Val.str id)] }
        [codes "x", codes "y", codes "z"]).1
      = .ok [some [("id", Val.str (codes "x"))], none, some [("id", Val.str (codes "z"))]] := by
  have c := (C4_mgetSources_aligned sampleMeta { index := codes "products" }
    { trivialConn with
      docs := fun _ id =>
        if id = codes "y" then none else some [("id", Val.str id)] }
    [codes "x", codes "y", codes "z"] rfl).1
  rw [c]
  rfl

/-! ## Claim C8 -/

/-- C8: `findSourceById` performs the existence check first; when the document
does not exist it returns `none` as a normal value (no fetch is issued — the
trace carries only the exists call); only when the existence check reports
`true` does it fetch and return the body.  `findById` is a raw passthrough: a
missing document is a propagated 404 engine failure, not `none`. -/
theorem C8_findSourceById_exists_first (meta : ClassMeta) (d : DocumentOptions) (conn : Conn)
    (id : JStr) (h : getDocumentMetadata meta = some d) :
    ((conn.existsResp d.index id).getD false = false →
      findSourceById meta conn id = (.ok none, [.existsDoc d.index id]))
    ∧ ((conn.existsResp d.index id).getD false = true →
      findSourceById meta conn id
        = ((conn.docs d.index id).elim (Except.error (RepoErr.engine .docNotFound))
            (fun b => Except.ok (some b)),
           [.existsDoc d.index id, .getDoc d.index id]))
    ∧ (conn.docs d.index id = none →
      (findById meta conn id).1 = .error (.engine .docNotFound))
    ∧ (∀ b, conn.docs d.index id = some b →
      (findById meta conn id).1 = .ok { found := true, source := some b }) := by
  have hi : indexName meta = .ok d.index := by
    unfold indexName
    rw [h]
  refine ⟨?_, ?_, ?_, ?_⟩
  · intro hf
    simp [findSourceById, hi, hf]
  · intro hf
    simp only [findSourceById, hi]
    rw [hf]
    cases hd : conn.docs d.index id <;> simp [hd]
  · intro hd
    simp [findById, hi, hd]
  · intro b hd
    simp [findById, hi, hd]

/-- Witness for C8: a connection holding no document — `findSourceById`
returns `none` normally after only the exists call, while `findById`
propagates the 404. -/
theorem C8_witness :
    findSourceById sampleMeta trivialConn (codes "p1")
      = (.ok none, [.existsDoc (codes "products") (codes "p1")])
    ∧ (findById sampleMeta trivialConn (codes "p1")).1 = .error (.engine .docNotFound) :=
  have c := C8_findSourceById_exists_first sampleMeta { index := codes "products" }
    trivialConn (codes "p1") rfl
  ⟨c.1 rfl, c.2.2.1 rfl⟩

/-! ## Claim C9 -/

/-- C9: for the empty input list, each of `bulkIndex`, `bulkDeleteByIds` and
`bulkUpdateByIds` resolves immediately as a no-op, short-circuiting before
any call to the underlying connection is issued: the result is success with
an empty call trace, for every class metadata and every connection. -/
theorem C9_bulk_empty_noop (meta : ClassMeta) (conn : Conn) :
    bulkIndex meta conn [] = (.ok (), [])
    ∧ bulkDeleteByIds meta conn [] = (.ok (), [])
    ∧ bulkUpdateByIds meta conn [] = (.ok (), []) :=
  ⟨rfl, rfl, rfl⟩

/-! ## Claim C10 -/

/-- C10: for every query (including the absent one), `count` returns the
numeric `count` field of the underlying connection's response, and returns 0
when that response lacks a `count` field, rather than failing or returning an
absent value; an engine failure of the call itself propagates. -/
theorem C10_count_defaults_zero (meta : ClassMeta) (d : DocumentOptions) (conn : Conn)
    (q : Option Query) (h : getDocumentMetadata meta = some d) :
    (∀ n, conn.countResp d.index q = .ok (some n) → (count meta conn q).1 = .ok n)
    ∧ (conn.countResp d.index q = .ok none → (count meta conn q).1 = .ok 0)
    ∧ (∀ f, conn.countResp d.index q = .error f →
        (count meta conn q).1 = .error (.engine f)) := by
  have hi : indexName meta = .ok d.index := by
    unfold indexName
    rw [h]
  refine ⟨?_, ?_, ?_⟩
  · intro n hc
    simp [count, hi, hc]
  · intro hc
    simp [count, hi, hc]
  · intro f hc
    simp [count, hi, hc]

/-- Witness for C10: a response without a `count` field yields 0; a response
with `count` 5 yields 5. -/
theorem C10_witness :
    (count sampleMeta trivialConn none).1 = .ok 0
    ∧ (count sampleMeta { trivialConn with countResp := fun _ _ => .ok (some 5) } none).1
      = .ok 5 :=
  ⟨(C10_count_defaults_zero sampleMeta { index := codes "products" } trivialConn none
      rfl).2.1 rfl,
   (C10_count_defaults_zero sampleMeta { index := codes "products" }
      { trivialConn with countResp := fun _ _ => .ok (some 5) } none rfl).1 5 rfl⟩

/-! ## Claim C5 -/

/-- Counterexample to C5 as stated: `ensureIndex` issues `indices.create`
with `ignore: [400]` (`es.repository.ts` line 97), which swallows every
status-400 failure of the creation call, not only the already-exists
conflict: here the creation call fails with `mapper_parsing_exception`
(status 400, not an already-exists conflict), yet `ensureIndex` resolves
successfully instead of propagating the failure. -/
theorem C5_counterexample :
    mapperConn.createResp (codes "products") = some .mapperParsing
    ∧ EngineFailure.mapperParsing ≠ EngineFailure.resourceAlreadyExists
    ∧ (ensureIndex sampleMeta mapperConn).1 = .ok () := by
  refine ⟨rfl, by simp, rfl⟩

/-- C5 amended: `ensureIndex` swallows exactly the failures carrying the
engine's 400 Bad-Request status — the class that contains the already-exists
conflict, so calling `ensureIndex` twice in a row succeeds both times — and
propagates every failure of any other status; `deleteIndex` swallows exactly
the not-found failures (so calling `deleteIndex` twice in a row succeeds both
times) and propagates all other failures. -/
theorem C5_ensure_delete_idempotent (meta : ClassMeta) (dm : DocumentMetadata)
    (d : DocumentOptions) (conn : Conn) (f g : EngineFailure) (s : EngineState)
    (hdm : buildDocumentMetadata meta = some dm) (hd : getDocumentMetadata meta = some d) :
    (conn.createResp dm.index = some f →
      ((ensureIndex meta conn).1 = .ok () ↔ f.status = 400))
    ∧ (conn.deleteResp d.index = some g →
      ((deleteIndex meta conn).1 = .ok () ↔ g.isNotFound = true))
    ∧ (ensureIndex meta (connOf s)).1 = .ok ()
    ∧ (ensureIndex meta (connOf (stepCreate s dm.index))).1 = .ok ()
    ∧ (deleteIndex meta (connOf s)).1 = .ok ()
    ∧ (deleteIndex meta (connOf (stepDelete s d.index))).1 = .ok () := by
  have hi : indexName meta = .ok d.index := by
    unfold indexName
    rw [hd]
  refine ⟨?_, ?_, ?_, ?_, ?_, ?_⟩
  · intro hc
    simp only [ensureIndex, hdm, transportIgnore, hc]
    by_cases hs : f.status = 400 <;> simp [hs]
  · intro hc
    simp only [deleteIndex, hi, transportIgnore, hc]
    cases g <;> simp [EngineFailure.status, EngineFailure.isNotFound]
  · simp only [ensureIndex, hdm, transportIgnore, connOf]
    by_cases hs : dm.index ∈ s.indices <;> simp [hs, EngineFailure.status]
  · simp only [ensureIndex, hdm, transportIgnore, connOf]
    by_cases hs : dm.index ∈ (stepCreate s dm.index).indices <;>
      simp [hs, EngineFailure.status]
  · simp only [deleteIndex, hi, transportIgnore, connOf]
    by_cases hs : d.index ∈ s.indices <;> simp [hs, EngineFailure.status]
  · simp only [deleteIndex, hi, transportIgnore, connOf]
    by_cases hs : d.index ∈ (stepDelete s d.index).indices <;>
      simp [hs, EngineFailure.status]

/-- Witness for C5 (amended): starting from an empty cluster, `ensureIndex`
succeeds, succeeds again after the index came to exist, and `deleteIndex`
succeeds twice in a row as well. -/
theorem C5_witness :
    (ensureIndex sampleMeta (connOf { indices := [] })).1 = .ok ()
    ∧ (ensureIndex sampleMeta
        (connOf (stepCreate { indices := [] } (codes "products")))).1 = .ok ()
    ∧ (deleteIndex sampleMeta (connOf { indices := [codes "products"] })).1 = .ok ()
    ∧ (deleteIndex sampleMeta
        (connOf (stepDelete { indices := [codes "products"] } (codes "products")))).1
      = .ok () :=
  have c := C5_ensure_delete_idempotent sampleMeta
    { docType := none
      fields := none
      index := codes "products"
      mappings := { properties := none, rest := [] }
      settings := none }
    { index := codes "products" } trivialConn .serverError .serverError
    { indices := [] } rfl rfl
  have c2 := C5_ensure_delete_idempotent sampleMeta
    { docType := none
      fields := none
      index := codes "products"
      mappings := { properties := none, rest := [] }
      settings := none }
    { index := codes "products" } trivialConn .serverError .serverError
    { indices := [codes "products"] } rfl rfl
  ⟨c.2.2.1, c.2.2.2.1, c2.2.2.2.2.1, c2.2.2.2.2.2⟩

/-! ## Claim C6 -/

theorem isSp_upC (c : Nat) : isSp (upC c) = isSp c := by
  unfold upC isSp
  split
  · next h => simp only [decide_eq_decide]; omega
  · rfl

theorem upC_upC (c : Nat) : upC (upC c) = upC c := by
  unfold upC
  split
  · next h => split <;> omega
  · rfl

theorem upperJ_upperJ (s : JStr) : upperJ (upperJ s) = upperJ s := by
  unfold upperJ
  rw [List.map_map]
  exact List.map_congr_left (fun c _ => upC_upC c)

theorem trimJ_upperJ (s : JStr) : trimJ (upperJ s) = upperJ (trimJ s) := by
  have hf : (isSp ∘ upC) = isSp := funext isSp_upC
  unfold trimJ upperJ List.rdropWhile
  rw [List.dropWhile_map, hf, ← List.map_reverse, List.dropWhile_map, hf, ← List.map_reverse]

theorem dropWhile_head_false (p : Nat → Bool) :
    ∀ l a r, List.dropWhile p l = a :: r → p a = false := by
  intro l
  induction l with
  | nil => intro a r h; simp [List.dropWhile] at h
  | cons x xs ih =>
    intro a r h
    rw [List.dropWhile_cons] at h
    by_cases hx : p x
    · rw [if_pos hx] at h
      exact ih a r h
    · rw [if_neg hx] at h
      cases h
      simpa using hx

theorem dropWhile_rdropWhile_dropWhile (p : Nat → Bool) (l : List Nat) :
    List.dropWhile p (List.rdropWhile p (List.dropWhile p l))
      = List.rdropWhile p (List.dropWhile p l) := by
  obtain ⟨t, ht⟩ := List.rdropWhile_prefix p (List.dropWhile p l)
  cases h : List.rdropWhile p (List.dropWhile p l) with
  | nil => rfl
  | cons a r =>
    rw [h] at ht
    have hua : List.dropWhile p l = a :: (r ++ t) := by
      rw [← ht]
      simp
    have hpa : p a = false := dropWhile_head_false p l a (r ++ t) hua
    simp [List.dropWhile_cons, hpa]

theorem trimJ_trimJ (s : JStr) : trimJ (trimJ s) = trimJ s := by
  unfold trimJ
  rw [dropWhile_rdropWhile_dropWhile, List.rdropWhile_idempotent]

theorem tok_eq_spec (name : Option JStr) :
    getElasticsearchClientToken name = clientTokenSpec name := by
  unfold getElasticsearchClientToken clientTokenSpec ES_DEFAULT_CLIENT_NAME
  have hdef : upperJ (codes "default") = codes "DEFAULT" := by decide
  by_cases ht : trimJ (name.getD []) = []
  · simp [jsOr, ht, hdef]
  · simp only [jsOr, if_neg ht, hdef]
    by_cases hu : upperJ (trimJ (name.getD [])) = codes "DEFAULT" <;> simp [hu, ht]

theorem tok_upper_trim (c : Option JStr) :
    getElasticsearchClientToken (some (upperJ (trimJ (jsOr c ES_DEFAULT_CLIENT_NAME))))
      = getElasticsearchClientToken c := by
  cases c with
  | none => decide
  | some s =>
    by_cases hs : s = []
    · subst hs; decide
    · have hj : jsOr (some s) ES_DEFAULT_CLIENT_NAME = s := by simp [jsOr, hs]
      rw [hj]
      by_cases ht : trimJ s = []
      · have hL : getElasticsearchClientToken (some (upperJ (trimJ s))) = codes "ES_CLIENT" := by
          rw [ht]
          decide
        have hR : getElasticsearchClientToken (some s) = codes "ES_CLIENT" := by
          unfold getElasticsearchClientToken
          simp [jsOr, ht]
        rw [hL, hR]
      · unfold getElasticsearchClientToken
        have htu : trimJ (upperJ (trimJ s)) = upperJ (trimJ s) := by
          rw [trimJ_upperJ, trimJ_trimJ]
        have hne : upperJ (trimJ s) ≠ [] := by
          unfold upperJ
          simpa using ht
        simp only [Option.getD_some, htu, jsOr, if_neg hne, if_neg ht, upperJ_upperJ]

/-- C6: the connection token is obtained by trimming and uppercasing the
name; when the result is `DEFAULT` (including the absent-name and
empty-string cases) the token is the literal `ES_CLIENT`, otherwise it is
`ES_CLIENT_` followed by the uppercased trimmed name; and the repository
token is `ES_REPOSITORY_`, the uppercased entity class name, an underscore,
and exactly the connection token of the optional connection name — with the
spec's concrete examples checked. -/
theorem C6_token_derivation :
    (∀ name, getElasticsearchClientToken name = clientTokenSpec name)
    ∧ (∀ e c, getRepositoryToken e c
        = codes "ES_REPOSITORY_" ++ upperJ e ++ codes "_" ++ getElasticsearchClientToken c)
    ∧ getRepositoryToken (codes "User") (some (codes "Analytics"))
      = codes "ES_REPOSITORY_USER_ES_CLIENT_ANALYTICS"
    ∧ getElasticsearchClientToken (some (codes "Analytics"))
      = getElasticsearchClientToken (some (codes " analytics "))
    ∧ getElasticsearchClientToken (some (codes "Analytics")) = codes "ES_CLIENT_ANALYTICS"
    ∧ getElasticsearchClientToken none = codes "ES_CLIENT"
    ∧ getElasticsearchClientToken (some []) = codes "ES_CLIENT" := by
  refine ⟨tok_eq_spec, ?_, by decide, by decide, by decide, by decide, by decide⟩
  intro e c
  have hbase : upperJ (codes "ES_REPOSITORY_" ++ e) = codes "ES_REPOSITORY_" ++ upperJ e := by
    unfold upperJ
    rw [List.map_append]
    congr 1
  show upperJ (codes "ES_REPOSITORY_" ++ e) ++ codes "_"
      ++ getElasticsearchClientToken (some (upperJ (trimJ (jsOr c ES_DEFAULT_CLIENT_NAME))))
    = codes "ES_REPOSITORY_" ++ upperJ e ++ codes "_" ++ getElasticsearchClientToken c
  rw [hbase, tok_upper_trim c]

/-! ## Claim C7 -/

/-- Counterexample to C7 as stated: the service lowercases connection names
but does NOT trim them (`es.service.ts` lines 44-51 and 60-70 call
`.toLowerCase()` only; the trimming `normalizeName` util exists but is not
used there).  Configuring a connection named `" A "` stores it under `" a "`
— not under the claim's trim-normalized key `"a"` — and `get("a")`, which by
the claim should resolve that connection, fails with the not-found error. -/
theorem C7_counterexample :
    specNormalizeName (some (codes " A ")) = codes "a"
    ∧ getKey (configure [{ name := some (codes " A "), node := codes "n" }] [])
        (specNormalizeName (some (codes " A "))) = none
    ∧ (getKey (configure [{ name := some (codes " A "), node := codes "n" }] [])
        (codes " a ")).isSome = true
    ∧ getClient (configure [{ name := some (codes " A "), node := codes "n" }] [])
        (some (codes "a")) = .error (.clientNotFound (codes "a")) :=
  ⟨rfl, rfl, rfl, rfl⟩

theorem configure_mono (defs : List ClientDef) (reg : Registry) (k : JStr)
    (h : (getKey reg k).isSome = true) :
    (getKey (configure defs reg) k).isSome = true := by
  induction defs generalizing reg with
  | nil => exact h
  | cons d ds ih =>
    show (getKey (configure ds
      (setKey reg (lowerJ (jsOr d.name ES_DEFAULT_CLIENT_NAME))
        (createElasticsearchClient d))) k).isSome = true
    apply ih
    rw [getKey_setKey]
    by_cases hk : lowerJ (jsOr d.name ES_DEFAULT_CLIENT_NAME) = k <;> simp [hk, h]

theorem configure_mem (defs : List ClientDef) (d : ClientDef) :
    ∀ reg : Registry, d ∈ defs →
      (getKey (configure defs reg)
        (lowerJ (jsOr d.name ES_DEFAULT_CLIENT_NAME))).isSome = true := by
  induction defs with
  | nil =>
    intro reg hd
    cases hd
  | cons x ds ih =>
    intro reg hd
    rcases List.mem_cons.mp hd with h | h
    · subst h
      show (getKey (configure ds
        (setKey reg (lowerJ (jsOr d.name ES_DEFAULT_CLIENT_NAME))
          (createElasticsearchClient d)))
        (lowerJ (jsOr d.name ES_DEFAULT_CLIENT_NAME))).isSome = true
      apply configure_mono
      rw [getKey_setKey]
      simp
    · exact ih _ h

/-- C7 amended: the Connection Registry normalizes connection names by
lowercasing only (no whitespace trimming); `configure` maps the empty or
absent name to `default` and stores each connection keyed by that lowercased
form; `get` lowercases its argument (defaulting only an absent argument to
`default`) before lookup, and fails with a not-found error carrying the
original requested name when no connection is registered under that key. -/
theorem C7_registry_normalization (defs : List ClientDef) (reg : Registry)
    (d : ClientDef) (n : JStr) :
    (d ∈ defs →
      (getKey (configure defs reg)
        (lowerJ (jsOr d.name ES_DEFAULT_CLIENT_NAME))).isSome = true)
    ∧ (getKey reg (lowerJ n) = none →
      getClient reg (some n) = .error (.clientNotFound n))
    ∧ (∀ c, getKey reg (lowerJ n) = some c → getClient reg (some n) = .ok c)
    ∧ getClient reg none = getClient reg (some ES_DEFAULT_CLIENT_NAME) := by
  refine ⟨fun hd => configure_mem defs d reg hd, ?_, ?_, rfl⟩
  · intro h
    simp [getClient, h]
  · intro c h
    simp [getClient, h]

/-- Witness for C7 (amended): a connection named `B` is retrievable under
`b`, and a lookup on an empty registry fails carrying the requested name. -/
theorem C7_witness :
    (getKey (configure [{ name := some (codes "B"), node := codes "n" }] [])
      (codes "b")).isSome = true
    ∧ getClient [] (some (codes "missing"))
      = .error (.clientNotFound (codes "missing")) :=
  have c := C7_registry_normalization [{ name := some (codes "B"), node := codes "n" }] []
    { name := some (codes "B"), node := codes "n" } (codes "missing")
  ⟨c.1 (by decide), c.2.1 rfl⟩

end EcomEs
